import Mathlib

/-!
Verification of the wakeru search engine core against its specification.

Each definition below is a shallow embedding of a function from the
repository (crates/wakeru/src); file and line references are given in the
doc comments.  Definitions suffixed `Spec` are written from the
specification's wording and compared with the embedded code.
-/

namespace Wakeru

/-- Embedding of Rust `str::starts_with`: a string starts with a pattern
iff the pattern's character sequence is a prefix of the string's character
sequence (for valid UTF-8 the byte-prefix and char-prefix relations
coincide). -/
def strStartsWith (s p : String) : Bool :=
  p.data.isPrefixOf s.data

/-- Content-word filter from `tokenizer/vibrato_tokenizer.rs`, `should_index`
(lines 135-185).  Decides from the dictionary feature string whether a token
is indexed. -/
def should_index (feature : String) : Bool :=
  if strStartsWith feature "助詞" || strStartsWith feature "助動詞"
      || strStartsWith feature "記号" || strStartsWith feature "フィラー"
      || strStartsWith feature "感動詞" || strStartsWith feature "接続詞"
      || strStartsWith feature "接頭詞" || strStartsWith feature "連体詞" then
    false
  else if strStartsWith feature "接尾辞,名詞的" then
    true
  else if strStartsWith feature "名詞" then
    if strStartsWith feature "名詞,代名詞" || strStartsWith feature "名詞,非自立" then
      false
    else
      true
  else if strStartsWith feature "動詞" || strStartsWith feature "形容詞" then
    true
  else if strStartsWith feature "形状詞" then
    true
  else if strStartsWith feature "副詞" then
    strStartsWith feature "副詞,一般"
  else
    false

/-- The spec's content-word filter, written from the top-down rules of
spec section 4.3: (1) reject the eight functional part-of-speech markers,
(2) accept nominal suffixes, (3) for nouns reject pronouns and
non-independent nouns and accept the rest, (4) accept verbs and
i-adjectives, (5) accept na-adjectives, (6) accept adverbs only when
general, (7) reject everything else. -/
def contentWordFilterSpec (feature : String) : Bool :=
  if ["助詞", "助動詞", "記号", "フィラー", "感動詞", "接続詞", "接頭詞",
      "連体詞"].any (fun p => strStartsWith feature p) then
    false
  else if strStartsWith feature "接尾辞,名詞的" then
    true
  else if strStartsWith feature "名詞" then
    if strStartsWith feature "名詞,代名詞" || strStartsWith feature "名詞,非自立" then
      false
    else
      true
  else if strStartsWith feature "動詞" || strStartsWith feature "形容詞" then
    true
  else if strStartsWith feature "形状詞" then
    true
  else if strStartsWith feature "副詞" then
    strStartsWith feature "副詞,一般"
  else
    false

/-- C3: `should_index` decides exactly by the spec's top-down content-word
filter rules, and the twenty section-8 filter vectors decide as tabulated
(eight index decisions, twelve skip decisions). -/
theorem should_index_matches_spec_rules_and_vectors :
    (∀ f, should_index f = contentWordFilterSpec f)
    ∧ should_index "名詞,一般,*,*,*,*,東京" = true
    ∧ should_index "名詞,固有名詞,地域,一般" = true
    ∧ should_index "名詞,サ変接続,*,*" = true
    ∧ should_index "動詞,自立,*,*" = true
    ∧ should_index "形容詞,自立,*,*" = true
    ∧ should_index "形状詞,一般,*,*" = true
    ∧ should_index "副詞,一般,*,*" = true
    ∧ should_index "接尾辞,名詞的,一般,*,*,*,寺" = true
    ∧ should_index "助詞,格助詞,一般" = false
    ∧ should_index "助動詞,*,*" = false
    ∧ should_index "記号,句点,*" = false
    ∧ should_index "名詞,代名詞,一般" = false
    ∧ should_index "名詞,非自立,一般" = false
    ∧ should_index "接続詞,*,*" = false
    ∧ should_index "フィラー,*,*" = false
    ∧ should_index "感動詞,*,*" = false
    ∧ should_index "接尾辞,動詞的,*,*" = false
    ∧ should_index "接尾辞,形容詞的,*,*" = false
    ∧ should_index "副詞,程度,*,*" = false
    ∧ should_index "補助記号,句点,*,*" = false := by
  refine ⟨fun f => ?_, ?_, ?_, ?_, ?_, ?_, ?_, ?_, ?_, ?_, ?_, ?_, ?_, ?_,
    ?_, ?_, ?_, ?_, ?_, ?_, ?_⟩
  · simp only [should_index, contentWordFilterSpec, List.any_cons,
      List.any_nil, Bool.or_false, Bool.or_assoc]
  all_goals decide

/-- JSON-shaped metadata value (`serde_json::Value` as used by
`models/model_definition.rs`); the numeric leaf is collapsed to one
constructor since no claim distinguishes number widths. -/
inductive Json where
  | null : Json
  | bool (b : Bool) : Json
  | num (n : Int) : Json
  | str (s : String) : Json
  | arr (xs : List Json) : Json
  | obj (fs : List (String × Json)) : Json

/-- `value.as_str()`: the string payload of a JSON string, `None`
otherwise. -/
def Json.asStr : Json → Option String
  | .str s => some s
  | _ => none

/-- Document metadata (`HashMap<String, serde_json::Value>`), modelled as an
association list with at most one binding per key. -/
def Metadata := List (String × Json)

/-- Key lookup in metadata (`HashMap::get`). -/
def Metadata.get : Metadata → String → Option Json
  | [], _ => none
  | (k', v') :: rest, k => if k' = k then some v' else Metadata.get rest k

/-- Key update in metadata (`HashMap` insertion: replace an existing
binding, otherwise add one). -/
def Metadata.set : Metadata → String → Json → Metadata
  | [], k, v => [(k, v)]
  | (k', v') :: rest, k, v =>
    if k' = k then (k', v) :: rest else (k', v') :: Metadata.set rest k v

/-- Reserved metadata key for tags (`models/model_definition.rs` line 9). -/
def TAGS_KEY : String := "tags"

/-- The `Document` model (`models/model_definition.rs` lines 29-42). -/
structure Document where
  id : String
  source_id : String
  text : String
  metadata : Metadata

/-- `Document::new` (lines 67-74): empty metadata. -/
def Document.new (id source_id text : String) : Document :=
  ⟨id, source_id, text, []⟩

/-- `Document::with_tag` (lines 112-124): fetch-or-insert the `tags` entry
with an empty array default; push onto it when it is an array, otherwise
overwrite it with a singleton array. -/
def Document.with_tag (d : Document) (tag : String) : Document :=
  let entry := (d.metadata.get TAGS_KEY).getD (Json.arr [])
  let newVal :=
    match entry with
    | Json.arr xs => Json.arr (xs ++ [Json.str tag])
    | _ => Json.arr [Json.str tag]
  { d with metadata := d.metadata.set TAGS_KEY newVal }

/-- `Document::tags` (lines 145-152): the string elements of
`metadata["tags"]` when it is an array, else empty. -/
def Document.tags (d : Document) : List String :=
  match d.metadata.get TAGS_KEY with
  | some (Json.arr xs) => xs.filterMap Json.asStr
  | _ => []

/-- Lookup after update finds the updated value. -/
theorem Metadata.get_set (m : Metadata) (k : String) (v : Json) :
    Metadata.get (Metadata.set m k v) k = some v := by
  induction m with
  | nil => simp [Metadata.set, Metadata.get]
  | cons p rest ih =>
    by_cases h : p.1 = k
    · simp [Metadata.set, Metadata.get, h]
    · simp [Metadata.set, Metadata.get, h, ih]

/-- C10: tag builders round-trip and normalize.  Building a fresh document
and adding tags `a` then `b` yields tags `[a, b]` (instantiating `a = b`
shows duplicates are preserved in insertion order), and after any
`with_tag` call `metadata["tags"]` is a JSON array even when the prior
value under the key was not an array. -/
theorem with_tag_round_trip_and_array_invariant :
    (∀ id source_id text a b : String,
      (((Document.new id source_id text).with_tag a).with_tag b).tags
        = [a, b])
    ∧ (∀ (d : Document) (tag : String),
      ∃ xs, ((d.with_tag tag).metadata.get TAGS_KEY) = some (Json.arr xs)) := by
  constructor
  · intro id source_id text a b
    simp [Document.new, Document.with_tag, Document.tags, Metadata.get,
      Metadata.set, TAGS_KEY, Json.asStr]
  · intro d tag
    unfold Document.with_tag
    cases h : d.metadata.get TAGS_KEY with
    | none => exact ⟨[Json.str tag], by simp [h, Metadata.get_set]⟩
    | some v =>
      cases v with
      | arr xs => exact ⟨xs ++ [Json.str tag], by simp [h, Metadata.get_set]⟩
      | null => exact ⟨[Json.str tag], by simp [h, Metadata.get_set]⟩
      | bool b => exact ⟨[Json.str tag], by simp [h, Metadata.get_set]⟩
      | num n => exact ⟨[Json.str tag], by simp [h, Metadata.get_set]⟩
      | str s => exact ⟨[Json.str tag], by simp [h, Metadata.get_set]⟩
      | obj fs => exact ⟨[Json.str tag], by simp [h, Metadata.get_set]⟩

/-- Tantivy schema field handle (`tantivy::schema::Field`). -/
structure TField where
  idx : Nat
deriving DecidableEq, Repr

/-- A search term (`tantivy::Term::from_field_text`): a field handle plus
the token text. -/
structure Term where
  field : TField
  text : String
deriving DecidableEq, Repr

/-- Result of query tokenization (`searcher/tokenization.rs` lines
16-22). -/
structure TokenizationResult where
  terms : List Term
  query_tokens : List String
deriving DecidableEq, Repr

/-- Loop body of `tokenize_from_stream` (`searcher/tokenization.rs` lines
77-109): walk the token stream, skip empty texts, skip texts already seen,
and record each surviving text as a raw token plus a term on the target
field. -/
def tokenizeLoop (field : TField) : List String → List String → TokenizationResult
  | [], _ => ⟨[], []⟩
  | t :: rest, seen =>
    if t = "" then tokenizeLoop field rest seen
    else if t ∈ seen then tokenizeLoop field rest seen
    else
      let r := tokenizeLoop field rest (t :: seen)
      ⟨⟨field, t⟩ :: r.terms, t :: r.query_tokens⟩

/-- `tokenize_from_stream`: the token stream is modelled by the list of its
token texts in emission order; the seen-set starts empty. -/
def tokenize_from_stream (stream : List String) (field : TField) : TokenizationResult :=
  tokenizeLoop field stream []

/-- Invariant of the tokenization loop, relative to an arbitrary seen-set:
terms mirror the raw tokens on the target field, a string is emitted iff it
occurs in the stream, is non-empty and was not already seen, and emitted
tokens are ordered by their first occurrence in the stream. -/
theorem tokenizeLoop_spec (field : TField) (stream : List String) :
    ∀ seen : List String,
      (tokenizeLoop field stream seen).terms
        = (tokenizeLoop field stream seen).query_tokens.map (fun t => Term.mk field t)
      ∧ (∀ s, s ∈ (tokenizeLoop field stream seen).query_tokens ↔
          (s ∈ stream ∧ s ≠ "" ∧ s ∉ seen))
      ∧ List.Pairwise (fun a b => stream.indexOf a < stream.indexOf b)
          (tokenizeLoop field stream seen).query_tokens := by
  induction stream with
  | nil => intro seen; refine ⟨rfl, ?_, List.Pairwise.nil⟩; simp [tokenizeLoop]
  | cons t rest ih =>
    intro seen
    by_cases ht : t = ""
    · subst ht
      rw [show tokenizeLoop field ("" :: rest) seen = tokenizeLoop field rest seen from by
        simp [tokenizeLoop]]
      obtain ⟨h1, h2, h3⟩ := ih seen
      refine ⟨h1, ?_, ?_⟩
      · intro s
        rw [h2 s]
        constructor
        · rintro ⟨hs, hne, hns⟩
          exact ⟨List.mem_cons_of_mem _ hs, hne, hns⟩
        · rintro ⟨hs, hne, hns⟩
          rcases List.mem_cons.mp hs with h | h
          · exact absurd h hne
          · exact ⟨h, hne, hns⟩
      · refine h3.imp_of_mem ?_
        intro a b ha hb hab
        have ha' := ((h2 a).mp ha).2.1
        have hb' := ((h2 b).mp hb).2.1
        rw [List.indexOf_cons_ne _ (Ne.symm ha'), List.indexOf_cons_ne _ (Ne.symm hb')]
        exact Nat.succ_lt_succ hab
    · by_cases hseen : t ∈ seen
      · rw [show tokenizeLoop field (t :: rest) seen = tokenizeLoop field rest seen from by
          simp [tokenizeLoop, ht, hseen]]
        obtain ⟨h1, h2, h3⟩ := ih seen
        refine ⟨h1, ?_, ?_⟩
        · intro s
          rw [h2 s]
          constructor
          · rintro ⟨hs, hne, hns⟩
            exact ⟨List.mem_cons_of_mem _ hs, hne, hns⟩
          · rintro ⟨hs, hne, hns⟩
            rcases List.mem_cons.mp hs with h | h
            · exact absurd (h ▸ hseen) hns
            · exact ⟨h, hne, hns⟩
        · refine h3.imp_of_mem ?_
          intro a b ha hb hab
          have ha' : a ≠ t := fun e => ((h2 a).mp ha).2.2 (e ▸ hseen)
          have hb' : b ≠ t := fun e => ((h2 b).mp hb).2.2 (e ▸ hseen)
          rw [List.indexOf_cons_ne _ (Ne.symm ha'), List.indexOf_cons_ne _ (Ne.symm hb')]
          exact Nat.succ_lt_succ hab
      · rw [show tokenizeLoop field (t :: rest) seen
            = ⟨⟨field, t⟩ :: (tokenizeLoop field rest (t :: seen)).terms,
               t :: (tokenizeLoop field rest (t :: seen)).query_tokens⟩ from by
          simp [tokenizeLoop, ht, hseen]]
        obtain ⟨h1, h2, h3⟩ := ih (t :: seen)
        refine ⟨?_, ?_, ?_⟩
        · simpa using h1
        · intro s
          simp only [List.mem_cons]
          constructor
          · rintro (rfl | hs)
            · exact ⟨Or.inl rfl, ht, hseen⟩
            · obtain ⟨hs1, hs2, hs3⟩ := (h2 s).mp hs
              exact ⟨Or.inr hs1, hs2, fun h => hs3 (List.mem_cons_of_mem _ h)⟩
          · rintro ⟨hs, hne, hns⟩
            by_cases hst : s = t
            · exact Or.inl hst
            · rcases hs with h | h
              · exact absurd h hst
              · exact Or.inr ((h2 s).mpr
                  ⟨h, hne, fun hm => (List.mem_cons.mp hm).elim hst hns⟩)
        · rw [List.pairwise_cons]
          constructor
          · intro b hb
            obtain ⟨hb1, _, hb3⟩ := (h2 b).mp hb
            have hbt : b ≠ t := fun e => hb3 (e ▸ List.mem_cons_self t seen)
            rw [List.indexOf_cons_self, List.indexOf_cons_ne _ (Ne.symm hbt)]
            exact Nat.succ_pos _
          · refine h3.imp_of_mem ?_
            intro a b ha hb hab
            have ha' : a ≠ t := fun e =>
              ((h2 a).mp ha).2.2 (e ▸ List.mem_cons_self t seen)
            have hb' : b ≠ t := fun e =>
              ((h2 b).mp hb).2.2 (e ▸ List.mem_cons_self t seen)
            rw [List.indexOf_cons_ne _ (Ne.symm ha'), List.indexOf_cons_ne _ (Ne.symm hb')]
            exact Nat.succ_lt_succ hab

/-- C6: query tokenization is a pure function of the stream: terms and raw
tokens correspond position-wise (terms are exactly the raw tokens mapped
onto the target field, hence equal length), each distinct non-empty token
text is emitted exactly once (no duplicates), empty texts are dropped, and
emission is ordered by first occurrence in the stream. -/
theorem tokenize_from_stream_unique_ordered (field : TField) (stream : List String) :
    (tokenize_from_stream stream field).terms
      = (tokenize_from_stream stream field).query_tokens.map (fun t => Term.mk field t)
    ∧ (tokenize_from_stream stream field).query_tokens.Nodup
    ∧ (∀ s, s ∈ (tokenize_from_stream stream field).query_tokens ↔
        (s ∈ stream ∧ s ≠ ""))
    ∧ List.Pairwise (fun a b => stream.indexOf a < stream.indexOf b)
        (tokenize_from_stream stream field).query_tokens := by
  unfold tokenize_from_stream
  obtain ⟨h1, h2, h3⟩ := tokenizeLoop_spec field stream []
  refine ⟨h1, ?_, ?_, h3⟩
  · exact h3.imp fun hab he => absurd (he ▸ hab) (lt_irrefl _)
  · intro s
    rw [h2 s]
    simp

/-- `AddDocumentsReport` (`indexer/report.rs` lines 12-19): total, added
and skipped-duplicate counters of one ingest batch. -/
structure AddDocumentsReport where
  total : Nat
  added : Nat
  skipped_duplicates : Nat
deriving DecidableEq, Repr

/-- Document loop of `IndexManager::add_documents`
(`indexer/index_manager.rs` lines 259-280).  `snap` is the searcher
snapshot taken before the loop, modelled by the list of ids with positive
document frequency; `seen` is the in-batch id set.  Per document: record
total; the document is a duplicate when its id was already seen in the
batch or is present in the snapshot — then record a skip, otherwise add it
through the writer and record an addition.  Returns the report, the ids
handed to the writer in order, and the per-document duplicate flags. -/
def addLoop (snap : List String) :
    List Document → List String → AddDocumentsReport × List String × List Bool
  | [], _ => (⟨0, 0, 0⟩, [], [])
  | d :: rest, seen =>
    let r := addLoop snap rest (d.id :: seen)
    if d.id ∈ seen ∨ d.id ∈ snap then
      (⟨r.1.total + 1, r.1.added, r.1.skipped_duplicates + 1⟩, r.2.1, true :: r.2.2)
    else
      (⟨r.1.total + 1, r.1.added + 1, r.1.skipped_duplicates⟩, d.id :: r.2.1,
        false :: r.2.2)

/-- `IndexManager::add_documents` (lines 249-289): run the loop with an
empty in-batch set, commit, and reload the reader — after which the visible
id set is the snapshot plus the ids written in this batch. -/
def add_documents (documents : List Document) (snap : List String) :
    AddDocumentsReport × List String :=
  let r := addLoop snap documents []
  (r.1, snap ++ r.2.1)

/-- Duplicate flags as the spec words them: a document is a duplicate iff
its id occurs among the ids of earlier documents of the batch (`prev`) or
belongs to the prior committed set. -/
def dupFlagsSpec (committedSet : List String) :
    List String → List String → List Bool
  | [], _ => []
  | i :: rest, prev =>
    decide (i ∈ prev ∨ i ∈ committedSet) :: dupFlagsSpec committedSet rest (prev ++ [i])

/-- Counter bookkeeping of the ingest loop: every document increments
`total`, and exactly one of `added` / `skipped_duplicates`. -/
theorem addLoop_counts (snap : List String) (documents : List Document) :
    ∀ seen, (addLoop snap documents seen).1.total = documents.length
      ∧ (addLoop snap documents seen).1.added
          + (addLoop snap documents seen).1.skipped_duplicates
        = (addLoop snap documents seen).1.total := by
  induction documents with
  | nil => intro seen; exact ⟨rfl, rfl⟩
  | cons d rest ih =>
    intro seen
    obtain ⟨h1, h2⟩ := ih (d.id :: seen)
    by_cases h : d.id ∈ seen ∨ d.id ∈ snap
    · simp only [addLoop, if_pos h, List.length_cons]
      exact ⟨by rw [h1], by omega⟩
    · simp only [addLoop, if_neg h, List.length_cons]
      exact ⟨by rw [h1], by omega⟩

/-- The loop's duplicate flags agree with the spec-worded flags whenever
the in-batch set agrees (as a set) with the processed id list. -/
theorem addLoop_flags (snap : List String) (documents : List Document) :
    ∀ seen prev, (∀ x, x ∈ seen ↔ x ∈ prev) →
      (addLoop snap documents seen).2.2
        = dupFlagsSpec snap (documents.map Document.id) prev := by
  induction documents with
  | nil => intro seen prev _; rfl
  | cons d rest ih =>
    intro seen prev hsp
    have hmem : (d.id ∈ seen ∨ d.id ∈ snap) ↔ (d.id ∈ prev ∨ d.id ∈ snap) := by
      rw [hsp d.id]
    have hnext : ∀ x, x ∈ d.id :: seen ↔ x ∈ prev ++ [d.id] := by
      intro x
      simp [List.mem_cons, List.mem_append, hsp x, or_comm]
    by_cases h : d.id ∈ seen ∨ d.id ∈ snap
    · simp only [addLoop, if_pos h, List.map_cons, dupFlagsSpec]
      rw [ih (d.id :: seen) (prev ++ [d.id]) hnext]
      simp [hmem.mp h]
    · simp only [addLoop, if_neg h, List.map_cons, dupFlagsSpec]
      rw [ih (d.id :: seen) (prev ++ [d.id]) hnext]
      simp [hmem.not.mp h]

/-- Every batch document's id ends up in the snapshot, the in-batch set, or
among the ids written by the loop. -/
theorem addLoop_covers (snap : List String) (documents : List Document) :
    ∀ seen d, d ∈ documents →
      d.id ∈ snap ∨ d.id ∈ seen ∨ d.id ∈ (addLoop snap documents seen).2.1 := by
  induction documents with
  | nil => intro seen d hd; cases hd
  | cons d0 rest ih =>
    intro seen d hd
    by_cases h : d0.id ∈ seen ∨ d0.id ∈ snap
    · simp only [addLoop, if_pos h]
      rcases List.mem_cons.mp hd with rfl | hd'
      · tauto
      · rcases ih (d0.id :: seen) d hd' with h1 | h1 | h1
        · exact Or.inl h1
        · rcases List.mem_cons.mp h1 with h2 | h2
          · rcases h with h3 | h3
            · exact Or.inr (Or.inl (h2 ▸ h3))
            · exact Or.inl (h2 ▸ h3)
          · exact Or.inr (Or.inl h2)
        · exact Or.inr (Or.inr h1)
    · simp only [addLoop, if_neg h]
      rcases List.mem_cons.mp hd with rfl | hd'
      · exact Or.inr (Or.inr (List.mem_cons_self _ _))
      · rcases ih (d0.id :: seen) d hd' with h1 | h1 | h1
        · exact Or.inl h1
        · rcases List.mem_cons.mp h1 with h2 | h2
          · exact Or.inr (Or.inr (h2 ▸ List.mem_cons_self _ _))
          · exact Or.inr (Or.inl h2)
        · exact Or.inr (Or.inr (List.mem_cons_of_mem _ h1))

/-- When every batch id is already in the snapshot, the loop skips
everything: nothing is added, nothing is written. -/
theorem addLoop_all_dup (snap : List String) (documents : List Document) :
    ∀ seen, (∀ d ∈ documents, d.id ∈ snap) →
      (addLoop snap documents seen).1.added = 0
      ∧ (addLoop snap documents seen).1.skipped_duplicates = documents.length
      ∧ (addLoop snap documents seen).2.1 = [] := by
  induction documents with
  | nil => intro seen _; exact ⟨rfl, rfl, rfl⟩
  | cons d rest ih =>
    intro seen hall
    have hd : d.id ∈ seen ∨ d.id ∈ snap := Or.inr (hall d (List.mem_cons_self _ _))
    obtain ⟨h1, h2, h3⟩ := ih (d.id :: seen) fun x hx => hall x (List.mem_cons_of_mem _ hx)
    simp only [addLoop, if_pos hd, List.length_cons]
    exact ⟨h1, by rw [h2], h3⟩

/-- C1: for every batch and committed snapshot, the report of
`add_documents` satisfies `total = |B|` and
`added + skipped_duplicates = total`: each document contributes to exactly
one of the two counters. -/
theorem add_documents_report_invariant (documents : List Document) (snap : List String) :
    (add_documents documents snap).1.total = documents.length
    ∧ (add_documents documents snap).1.added
        + (add_documents documents snap).1.skipped_duplicates
      = (add_documents documents snap).1.total := by
  obtain ⟨h1, h2⟩ := addLoop_counts snap documents []
  exact ⟨h1, h2⟩

/-- C4: a document is skipped as a duplicate exactly when its id occurred
earlier in the batch or has positive document frequency in the pre-writer
snapshot, and re-ingesting the same batch immediately after makes the
second call add nothing — every document is reported skipped — while the
visible id set is unchanged (skipped documents update nothing, and the
call still returns a report rather than an error). -/
theorem add_documents_duplicate_iff_and_idempotent
    (documents : List Document) (snap : List String) :
    (addLoop snap documents []).2.2
        = dupFlagsSpec snap (documents.map Document.id) []
    ∧ (add_documents documents ((add_documents documents snap).2)).1.added = 0
    ∧ (add_documents documents ((add_documents documents snap).2)).1.skipped_duplicates
        = documents.length
    ∧ (add_documents documents ((add_documents documents snap).2)).2
        = (add_documents documents snap).2 := by
  have hall : ∀ d ∈ documents, d.id ∈ (add_documents documents snap).2 := by
    intro d hd
    rcases addLoop_covers snap documents [] d hd with h | h | h
    · exact List.mem_append.mpr (Or.inl h)
    · cases h
    · exact List.mem_append.mpr (Or.inr h)
  obtain ⟨h1, h2, h3⟩ := addLoop_all_dup ((add_documents documents snap).2) documents [] hall
  refine ⟨addLoop_flags snap documents [] [] (fun x => Iff.rfl), h1, h2, ?_⟩
  show (add_documents documents snap).2
      ++ (addLoop ((add_documents documents snap).2) documents []).2.1
    = (add_documents documents snap).2
  rw [h3, List.append_nil]

/-- Schema field bundle (`indexer/schema_builder.rs` lines 20-35);
`text_ngram` is present only for Japanese indexes. -/
structure SchemaFields where
  id : TField
  source_id : TField
  text : TField
  metadata : TField
  text_ngram : Option TField
deriving DecidableEq, Repr

/-- `tantivy::query::Occur` as used by `search_tokens_or` (only `Should`
occurs there). -/
inductive Occur where
  | Should
  | Must
  | MustNot
deriving DecidableEq, Repr

/-- The query shapes `search_tokens_or` can build: a term-set disjunction
or a boolean combination of subqueries. -/
inductive Query where
  | termSet (terms : List Term) : Query
  | boolean (subqueries : List (Occur × Query)) : Query

/-- Search error taxonomy (`errors/error_definition.rs` lines 199-229). -/
inductive SearcherError where
  | Tantivy : SearcherError
  | InvalidQuery (reason : String) : SearcherError
  | InvalidIndex (fld reason : String) : SearcherError
  | MetadataDeserialize (doc_id : String) : SearcherError
deriving DecidableEq, Repr

/-- A BM25 hit (`models/model_definition.rs` lines 46-62). -/
structure SearchResult where
  doc_id : String
  source_id : String
  score : Float
  text : String
  metadata : Metadata

/-- N-gram term extraction of `search_tokens_or`
(`searcher/bm25_searcher.rs` lines 185-195): when the schema has a
`text_ngram` field, every query token whose character count is exactly one
becomes a term against it; otherwise there are no N-gram terms. -/
def ngram_terms (fields : SchemaFields) (query_tokens : List String) : List Term :=
  match fields.text_ngram with
  | some f => (query_tokens.filter (fun token => token.length == 1)).map
      (fun token => Term.mk f token)
  | none => []

/-- Query construction of `search_tokens_or` (lines 201-214): a single
term-set over the text terms when no N-gram terms exist, else a boolean
disjunction of the two term-sets. -/
def buildTokensOrQuery (morph_terms ngramTerms : List Term) : Query :=
  if ngramTerms.isEmpty then Query.termSet morph_terms
  else Query.boolean [(Occur.Should, Query.termSet morph_terms),
    (Occur.Should, Query.termSet ngramTerms)]

/-- `SearchEngine::search_tokens_or` (lines 154-227).  The registered
language analyzer is modelled as a function from the query string to its
token stream, and the downstream top-K execution plus result
materialization as an oracle `exec` over the built query, so the theorems
below hold for every index state. -/
def search_tokens_or (fields : SchemaFields) (analyzer : String → List String)
    (exec : Query → Nat → Except SearcherError (List SearchResult))
    (query_str : String) (limit : Nat) : Except SearcherError (List SearchResult) :=
  let r := tokenize_from_stream (analyzer query_str) fields.text
  if r.terms.isEmpty then Except.ok []
  else exec (buildTokensOrQuery r.terms (ngram_terms fields r.query_tokens)) limit

/-- C7: in `search_tokens_or` every surviving query token becomes a term
against the text field (position-wise); with a `text_ngram` field exactly
the tokens of character count one additionally become N-gram terms, and
without one there are none; when tokens survive, the executed query is the
plain term-set over text if no N-gram terms exist and otherwise the boolean
disjunction of the text term-set and the N-gram term-set. -/
theorem search_tokens_or_query_partition (fields : SchemaFields) (stream : List String) :
    (tokenize_from_stream stream fields.text).terms
      = (tokenize_from_stream stream fields.text).query_tokens.map
          (fun t => Term.mk fields.text t)
    ∧ (∀ f, fields.text_ngram = some f → ∀ t,
        (Term.mk f t ∈ ngram_terms fields (tokenize_from_stream stream fields.text).query_tokens
          ↔ (t ∈ (tokenize_from_stream stream fields.text).query_tokens ∧ t.length = 1)))
    ∧ (fields.text_ngram = none →
        ngram_terms fields (tokenize_from_stream stream fields.text).query_tokens = [])
    ∧ (∀ analyzer exec query_str limit, analyzer query_str = stream →
        (tokenize_from_stream stream fields.text).terms ≠ [] →
        search_tokens_or fields analyzer exec query_str limit
          = exec (buildTokensOrQuery (tokenize_from_stream stream fields.text).terms
              (ngram_terms fields (tokenize_from_stream stream fields.text).query_tokens)) limit)
    ∧ (∀ morph ng : List Term, ng = [] → buildTokensOrQuery morph ng = Query.termSet morph)
    ∧ (∀ morph ng : List Term, ng ≠ [] → buildTokensOrQuery morph ng
        = Query.boolean [(Occur.Should, Query.termSet morph),
            (Occur.Should, Query.termSet ng)]) := by
  refine ⟨(tokenizeLoop_spec fields.text stream []).1, ?_, ?_, ?_, ?_, ?_⟩
  · intro f hf t
    simp only [ngram_terms, hf, List.mem_map, List.mem_filter, Term.mk.injEq,
      beq_iff_eq, eq_self_iff_true, true_and, and_true]
    constructor
    · rintro ⟨tok, ⟨hmem, hlen⟩, rfl⟩
      exact ⟨hmem, hlen⟩
    · rintro ⟨hmem, hlen⟩
      exact ⟨t, ⟨hmem, hlen⟩, rfl⟩
  · intro hnone
    simp [ngram_terms, hnone]
  · intro analyzer exec query_str limit ha hne
    simp only [search_tokens_or, ha]
    rw [if_neg (by simpa using hne)]
  · intro morph ng hng
    simp [buildTokensOrQuery, hng]
  · intro morph ng hng
    simp only [buildTokensOrQuery]
    rw [if_neg (by simpa using hng)]

/-- Witness for C7: applies the theorem on a concrete Ja-style schema and a
concrete two-token stream, discharging the analyzer and non-emptiness
hypotheses there. -/
theorem search_tokens_or_query_partition_witness :
    search_tokens_or (SchemaFields.mk ⟨0⟩ ⟨1⟩ ⟨2⟩ ⟨3⟩ (some ⟨4⟩))
        (fun _ => ["a", "bc"]) (fun _ _ => Except.ok []) "a bc" 10
      = (fun _ _ => Except.ok ([] : List SearchResult))
          (buildTokensOrQuery
            (tokenize_from_stream ["a", "bc"] ⟨2⟩).terms
            (ngram_terms (SchemaFields.mk ⟨0⟩ ⟨1⟩ ⟨2⟩ ⟨3⟩ (some ⟨4⟩))
              (tokenize_from_stream ["a", "bc"] ⟨2⟩).query_tokens)) 10 :=
  (search_tokens_or_query_partition (SchemaFields.mk ⟨0⟩ ⟨1⟩ ⟨2⟩ ⟨3⟩ (some ⟨4⟩))
    ["a", "bc"]).2.2.2.1 (fun _ => ["a", "bc"]) (fun _ _ => Except.ok []) "a bc" 10
    rfl (by decide)

/-- C8: whenever tokenization of the query yields no terms — in particular
for an analyzer producing no tokens on the empty query string — the search
returns `Ok` with an empty result list for every index state (every
execution oracle), never an error. -/
theorem search_tokens_or_empty_tokens_ok (fields : SchemaFields)
    (analyzer : String → List String)
    (exec : Query → Nat → Except SearcherError (List SearchResult))
    (query_str : String) (limit : Nat)
    (h : (tokenize_from_stream (analyzer query_str) fields.text).terms = []) :
    search_tokens_or fields analyzer exec query_str limit = Except.ok [] := by
  simp [search_tokens_or, h]

/-- Witness for C8: the empty query string against an analyzer emitting no
tokens and an execution oracle that always errors still returns `Ok []`. -/
theorem search_tokens_or_empty_tokens_ok_witness :
    search_tokens_or (SchemaFields.mk ⟨0⟩ ⟨1⟩ ⟨2⟩ ⟨3⟩ none) (fun _ => [])
        (fun _ _ => Except.error (SearcherError.InvalidQuery "boom")) "" 10
      = Except.ok [] :=
  search_tokens_or_empty_tokens_ok (SchemaFields.mk ⟨0⟩ ⟨1⟩ ⟨2⟩ ⟨3⟩ none)
    (fun _ => []) (fun _ _ => Except.error (SearcherError.InvalidQuery "boom"))
    "" 10 (by decide)

/-- Supported languages (`config.rs` lines 17-22). -/
inductive Language where
  | Ja
  | En
deriving DecidableEq, Repr

/-- Outcome of the filesystem probes `validate` performs on the configured
dictionary cache directory (`config.rs` lines 347-364): the path exists and
is a directory, exists but is not a directory, is absent but creatable, or
is absent and creation fails. -/
inductive CacheDirState where
  | existsIsDir
  | existsNotDir
  | absentCreatable
  | absentUncreatable
deriving DecidableEq, Repr

/-- The configuration fields consulted by `WakeruConfig::validate`
(`config.rs`), with the nested `[index]`, `[search]` and `[dictionary]`
sections flattened; an unset cache directory is `none`. -/
structure WakeruConfig where
  languages : List Language
  default_language : Language
  default_limit : Nat
  max_limit : Nat
  writer_memory_bytes : Nat
  batch_commit_size : Nat
  cache_dir : Option CacheDirState
deriving DecidableEq, Repr

/-- `ConfigError` (`errors/error_definition.rs`), restricted to the
variants `validate` can produce. -/
inductive ConfigError where
  | EmptyLanguages
  | DefaultLanguageNotInLanguages (default_language : Language)
  | InvalidSearchDefaultLimit (actual : Nat)
  | InvalidSearchMaxLimit (default_limit max_limit : Nat)
  | InvalidWriterMemoryBytes (lo hi actual : Nat)
  | InvalidBatchCommitSize (actual : Nat)
  | InvalidDictionaryCacheDir
  | DictionaryCacheDirCreationFailed
deriving DecidableEq, Repr

/-- `MIN_WRITER_MEMORY` (`config.rs` line 328): 1 MB. -/
def MIN_WRITER_MEMORY : Nat := 1000000

/-- `MAX_WRITER_MEMORY` (`config.rs` line 329): 1 GB. -/
def MAX_WRITER_MEMORY : Nat := 1000000000

/-- `WakeruConfig::validate` (`config.rs` lines 299-367): a chain of early
returns — languages emptiness, default-language membership, default limit,
max limit, writer memory range, batch commit size, cache directory. -/
def validate (c : WakeruConfig) : Except ConfigError Unit :=
  if c.languages.isEmpty then
    Except.error ConfigError.EmptyLanguages
  else if c.default_language ∉ c.languages then
    Except.error (ConfigError.DefaultLanguageNotInLanguages c.default_language)
  else if c.default_limit < 1 then
    Except.error (ConfigError.InvalidSearchDefaultLimit c.default_limit)
  else if c.max_limit < c.default_limit then
    Except.error (ConfigError.InvalidSearchMaxLimit c.default_limit c.max_limit)
  else if ¬ (MIN_WRITER_MEMORY ≤ c.writer_memory_bytes
      ∧ c.writer_memory_bytes ≤ MAX_WRITER_MEMORY) then
    Except.error (ConfigError.InvalidWriterMemoryBytes MIN_WRITER_MEMORY
      MAX_WRITER_MEMORY c.writer_memory_bytes)
  else if c.batch_commit_size < 1 then
    Except.error (ConfigError.InvalidBatchCommitSize c.batch_commit_size)
  else
    match c.cache_dir with
    | some CacheDirState.existsNotDir =>
        Except.error ConfigError.InvalidDictionaryCacheDir
    | some CacheDirState.absentUncreatable =>
        Except.error ConfigError.DictionaryCacheDirCreationFailed
    | _ => Except.ok ()

/-- Spec check 1: languages emptiness. -/
def languagesEmptinessCheck (c : WakeruConfig) : Option ConfigError :=
  if c.languages.isEmpty then some ConfigError.EmptyLanguages else none

/-- Spec check 2: default-language membership. -/
def defaultLanguageMembershipCheck (c : WakeruConfig) : Option ConfigError :=
  if c.default_language ∉ c.languages then
    some (ConfigError.DefaultLanguageNotInLanguages c.default_language)
  else none

/-- Spec check 3: search default limit at least one. -/
def searchDefaultLimitCheck (c : WakeruConfig) : Option ConfigError :=
  if c.default_limit < 1 then
    some (ConfigError.InvalidSearchDefaultLimit c.default_limit)
  else none

/-- Spec check 4: search max limit at least the default limit. -/
def searchMaxLimitCheck (c : WakeruConfig) : Option ConfigError :=
  if c.max_limit < c.default_limit then
    some (ConfigError.InvalidSearchMaxLimit c.default_limit c.max_limit)
  else none

/-- Spec check 5: writer memory within the inclusive 1 MB - 1 GB range. -/
def writerMemoryCheck (c : WakeruConfig) : Option ConfigError :=
  if MIN_WRITER_MEMORY ≤ c.writer_memory_bytes
      ∧ c.writer_memory_bytes ≤ MAX_WRITER_MEMORY then none
  else
    some (ConfigError.InvalidWriterMemoryBytes MIN_WRITER_MEMORY
      MAX_WRITER_MEMORY c.writer_memory_bytes)

/-- Spec check 6: batch commit size at least one. -/
def batchCommitCheck (c : WakeruConfig) : Option ConfigError :=
  if c.batch_commit_size < 1 then
    some (ConfigError.InvalidBatchCommitSize c.batch_commit_size)
  else none

/-- Spec check 7: cache-dir validity. -/
def cacheDirCheck (c : WakeruConfig) : Option ConfigError :=
  match c.cache_dir with
  | some CacheDirState.existsNotDir => some ConfigError.InvalidDictionaryCacheDir
  | some CacheDirState.absentUncreatable =>
      some ConfigError.DictionaryCacheDirCreationFailed
  | _ => none

/-- First failing check of a priority-ordered check list. -/
def firstFailing : List (Option ConfigError) → Option ConfigError
  | [] => none
  | some e :: _ => some e
  | none :: rest => firstFailing rest

/-- Validation as worded by the spec: run the checks in the stated priority
order and return the first failure, `Ok` when none fails. -/
def validateSpec (c : WakeruConfig) : Except ConfigError Unit :=
  match firstFailing [languagesEmptinessCheck c, defaultLanguageMembershipCheck c,
      searchDefaultLimitCheck c, searchMaxLimitCheck c, writerMemoryCheck c,
      batchCommitCheck c, cacheDirCheck c] with
  | some e => Except.error e
  | none => Except.ok ()

/-- Helper: the first failing check is absent exactly when every check in
the list passes. -/
theorem firstFailing_eq_none (l : List (Option ConfigError)) :
    firstFailing l = none ↔ ∀ o ∈ l, o = none := by
  induction l with
  | nil => simp [firstFailing]
  | cons o rest ih =>
    cases o with
    | none => simp [firstFailing, ih]
    | some e => simp [firstFailing]

/-- C9: `validate` returns exactly the first failing check in the spec's
priority order — languages emptiness, default-language membership, search
default limit then max limit, writer memory within the inclusive
`[1_000_000, 1_000_000_000]` range, batch commit size at least one,
cache-dir validity — and returns `Ok` exactly when every check passes,
i.e. for a fully valid configuration. -/
theorem validate_priority_order (c : WakeruConfig) :
    validate c = validateSpec c
    ∧ (validate c = Except.ok () ↔
        (languagesEmptinessCheck c = none ∧ defaultLanguageMembershipCheck c = none
          ∧ searchDefaultLimitCheck c = none ∧ searchMaxLimitCheck c = none
          ∧ writerMemoryCheck c = none ∧ batchCommitCheck c = none
          ∧ cacheDirCheck c = none)) := by
  have hcd : ∀ e, (cacheDirCheck c = some e
      → (match c.cache_dir with
          | some CacheDirState.existsNotDir =>
              Except.error ConfigError.InvalidDictionaryCacheDir
          | some CacheDirState.absentUncreatable =>
              Except.error ConfigError.DictionaryCacheDirCreationFailed
          | _ => Except.ok ()) = (Except.error e : Except ConfigError Unit)) := by
    intro e he
    unfold cacheDirCheck at he
    rcases hc : c.cache_dir with _ | s
    · rw [hc] at he; cases he
    · cases s <;> rw [hc] at he <;> simp_all
  have hcd' : cacheDirCheck c = none
      → (match c.cache_dir with
          | some CacheDirState.existsNotDir =>
              Except.error ConfigError.InvalidDictionaryCacheDir
          | some CacheDirState.absentUncreatable =>
              Except.error ConfigError.DictionaryCacheDirCreationFailed
          | _ => Except.ok ()) = (Except.ok () : Except ConfigError Unit) := by
    intro he
    unfold cacheDirCheck at he
    rcases hc : c.cache_dir with _ | s
    · rfl
    · cases s <;> rw [hc] at he <;> simp_all
  have hmain : validate c = validateSpec c := by
    unfold validate validateSpec languagesEmptinessCheck
      defaultLanguageMembershipCheck searchDefaultLimitCheck searchMaxLimitCheck
      writerMemoryCheck batchCommitCheck
    split_ifs <;>
      first
        | rfl
        | (rcases hres : cacheDirCheck c with _ | e
           · rw [hcd' hres]; rfl
           · rw [hcd e hres]; rfl)
  have hspec : validateSpec c = Except.ok () ↔
      (languagesEmptinessCheck c = none ∧ defaultLanguageMembershipCheck c = none
        ∧ searchDefaultLimitCheck c = none ∧ searchMaxLimitCheck c = none
        ∧ writerMemoryCheck c = none ∧ batchCommitCheck c = none
        ∧ cacheDirCheck c = none) := by
    unfold validateSpec
    rcases hf : firstFailing [languagesEmptinessCheck c,
        defaultLanguageMembershipCheck c, searchDefaultLimitCheck c,
        searchMaxLimitCheck c, writerMemoryCheck c, batchCommitCheck c,
        cacheDirCheck c] with _ | e
    · have hall := (firstFailing_eq_none _).mp hf
      constructor
      · intro _
        exact ⟨hall _ (by simp), hall _ (by simp), hall _ (by simp),
          hall _ (by simp), hall _ (by simp), hall _ (by simp), hall _ (by simp)⟩
      · intro _; rfl
    · constructor
      · intro h; exact Except.noConfusion h
      · rintro ⟨h1, h2, h3, h4, h5, h6, h7⟩
        rw [h1, h2, h3, h4, h5, h6, h7] at hf
        simp [firstFailing] at hf
  exact ⟨hmain, by rw [hmain]; exact hspec⟩

/-- Memory budget handed to `Index::writer` by
`IndexManager::add_documents` (`indexer/index_manager.rs` line 254): a
hard-coded 50 MB constant; the configured `writer_memory_bytes` is never
consulted there. -/
def add_documents_writer_budget : Nat := 50000000

/-- C2 (code bug): a configuration that passes validation with
`writer_memory_bytes = 1_000_000` exists, yet `add_documents` opens its
writer with the fixed 50 MB budget, not the configured value. -/
theorem add_documents_ignores_configured_writer_memory :
    validate (WakeruConfig.mk [Language.Ja] Language.Ja 10 100 1000000 1000
        (some CacheDirState.existsIsDir)) = Except.ok ()
    ∧ (WakeruConfig.mk [Language.Ja] Language.Ja 10 100 1000000 1000
        (some CacheDirState.existsIsDir)).writer_memory_bytes = 1000000
    ∧ add_documents_writer_budget
        ≠ (WakeruConfig.mk [Language.Ja] Language.Ja 10 100 1000000 1000
            (some CacheDirState.existsIsDir)).writer_memory_bytes := by
  refine ⟨rfl, rfl, by decide⟩

end Wakeru
